import Mathlib

/-!
Verification development for the DocuSign CoF extraction repository.

The definitions below are a shallow embedding of:
  * src/server/services/advancedCoFExtractor.js (field validation, the
    pattern based OCR-text extractor, and the orchestrating extractFields)
  * src/server/services/folderReader.js (scanFolderRecursively)

JavaScript strings are modelled as Lean `String` (a structure wrapping
`List Char`); JS `null`/`undefined` values are modelled as `Option`.
All regular expressions of advancedCoFExtractor.js are written in the
source with doubled backslashes inside regex literals (for example
`/^[a-zA-Z0-9._%+-]+@[a-zA-Z0-9.-]+\\.[a-zA-Z]{2,}$/`), so in the regex
language `\\` denotes one literal backslash character and the following
letter is an ordinary literal; the embedding reproduces exactly that
semantics via a small prioritized backtracking matcher.
-/

namespace DocuSign

/-! ### String helpers (models of the JS string primitives used) -/

/-- Model of JS `String.prototype.toLowerCase` (ASCII; all inputs used are ASCII). -/
def lowerStr (s : String) : String := ⟨s.toList.map Char.toLower⟩

/-- Model of JS `String.prototype.toUpperCase` (ASCII). -/
def upperStr (s : String) : String := ⟨s.toList.map Char.toUpper⟩

/-- Trim a character list on both ends, dropping whitespace. -/
def trimList (cs : List Char) : List Char :=
  ((cs.dropWhile Char.isWhitespace).reverse.dropWhile Char.isWhitespace).reverse

/-- Model of JS `String.prototype.trim` (ASCII whitespace). -/
def jsTrim (s : String) : String := ⟨trimList s.toList⟩

/-- Model of `value.replace(/[^0-9]/g, '')`: keep only decimal digits. -/
def digitsOf (s : String) : String := ⟨s.toList.filter Char.isDigit⟩

/-- Numeric value of a digit list (most significant first). -/
def digitsVal (ds : List Char) : Nat := ds.foldl (fun a c => a * 10 + (c.toNat - 48)) 0

/-- Model of JS `parseInt` on the strings produced in this code base:
skip leading whitespace, read a maximal run of decimal digits, `NaN`
(modelled as `none`) when that run is empty.  The call sites only ever
feed digit-only strings or strings beginning with a non-digit, so the
sign/hex corners of `parseInt` are irrelevant. -/
def parseIntJS (s : String) : Option Nat :=
  let ds := (s.toList.dropWhile Char.isWhitespace).takeWhile Char.isDigit
  if ds.isEmpty then none else some (digitsVal ds)

/-- Decimal digit characters of a natural number, most significant first
(fuelled; fuel `n + 1` always suffices). -/
def decDigitsAux : Nat → Nat → List Char
  | 0, _ => []
  | fuel + 1, n =>
    if n < 10 then [Nat.digitChar n]
    else decDigitsAux fuel (n / 10) ++ [Nat.digitChar (n % 10)]

/-- Model of JS `Number.prototype.toString` on naturals (base 10). -/
def natToString (n : Nat) : String := ⟨decDigitsAux (n + 1) n⟩

/-- Model of JS `String.prototype.startsWith`. -/
def strStartsWith (s pre : String) : Bool := pre.toList.isPrefixOf s.toList

/-! ### A prioritized backtracking regex matcher

A `Matcher` sends an input suffix to the list of possible
(consumed, rest) splits, ordered by the priority a JS regex engine
would use (greedy quantifiers prefer longer matches, lazy ones prefer
shorter, alternations prefer the left alternative).  The head of the
returned list is therefore the match the engine reports. -/

abbrev Matcher := List Char → List (List Char × List Char)

def mEps : Matcher := fun s => [([], s)]

def mFail : Matcher := fun _ => []

def mCharP (f : Char → Bool) : Matcher := fun s =>
  match s with
  | [] => []
  | c :: cs => if f c then [([c], cs)] else []

/-- Single literal character; `ci` requests case-insensitive comparison. -/
def mChar (ci : Bool) (c : Char) : Matcher :=
  mCharP (fun d => if ci then d.toLower = c.toLower else d = c)

def mSeq (a b : Matcher) : Matcher := fun s =>
  (a s).flatMap fun p => (b p.2).map fun q => (p.1 ++ q.1, q.2)

def mSeqs (ms : List Matcher) : Matcher := ms.foldr mSeq mEps

def mAlt (a b : Matcher) : Matcher := fun s => a s ++ b s

def mAlts (ms : List Matcher) : Matcher := ms.foldr mAlt mFail

/-- Case-insensitive literal word. -/
def mStrCI (w : String) : Matcher :=
  w.toList.foldr (fun c acc => mSeq (mChar true c) acc) mEps

/-- Greedy `?`. -/
def mOpt (a : Matcher) : Matcher := mAlt a mEps

/-- Greedy repetition, at most `n` times (longer matches first). -/
def mRepG : Nat → Matcher → Matcher
  | 0, _ => mEps
  | n + 1, a => mAlt (mSeq a (mRepG n a)) mEps

/-- Lazy repetition, at most `n` times (shorter matches first). -/
def mRepL : Nat → Matcher → Matcher
  | 0, _ => mEps
  | n + 1, a => mAlt mEps (mSeq a (mRepL n a))

/-- Greedy `*`: every pattern starred here consumes at least one
character per iteration, so `s.length` iterations always suffice. -/
def mStarG (a : Matcher) : Matcher := fun s => mRepG s.length a s

/-- Lazy `*?`. -/
def mStarL (a : Matcher) : Matcher := fun s => mRepL s.length a s

/-- Exactly `n` repetitions. -/
def mExact : Nat → Matcher → Matcher
  | 0, _ => mEps
  | n + 1, a => mSeq a (mExact n a)

/-- Greedy counted repetition `{lo,hi}`. -/
def mCount (lo hi : Nat) (a : Matcher) : Matcher :=
  mSeq (mExact lo a) (mRepG (hi - lo) a)

/-- Greedy `{lo,}`. -/
def mAtLeast (lo : Nat) (a : Matcher) : Matcher := mSeq (mExact lo a) (mStarG a)

/-- Greedy `+`. -/
def mPlus (a : Matcher) : Matcher := mSeq a (mStarG a)

/-- Zero-width lookahead `(?=a)`. -/
def mLook (a : Matcher) : Matcher := fun s => if (a s).isEmpty then [] else [([], s)]

/-- End-of-input anchor `$` (no multiline flag anywhere in the source). -/
def mEnd : Matcher := fun s => if s.isEmpty then [([], s)] else []

/-- The regex `.` (any character except a newline). -/
def mAnyNotNL : Matcher := mCharP (fun c => c ≠ '\n')

/-- All matches of `m` in `s`, in the way `String.prototype.match` with
the `g` flag collects them: leftmost first, the engine-priority match at
each position, resuming after the consumed text (advancing one position
on an empty match).  Fuel `s.length + 1` always suffices. -/
def jsMatchListAux (m : Matcher) : Nat → List Char → List (List Char)
  | 0, _ => []
  | fuel + 1, s =>
    match m s with
    | p :: _ =>
      if s.isEmpty then [p.1]
      else p.1 :: jsMatchListAux m fuel (s.drop (max 1 p.1.length))
    | [] =>
      match s with
      | [] => []
      | _ :: rest => jsMatchListAux m fuel rest

/-- Model of `s.match(re)` for a `g`-flagged `re`: the list of all full
matches, or `none` when there is no match. -/
def jsMatch (m : Matcher) (s : String) : Option (List String) :=
  let l := (jsMatchListAux m (s.toList.length + 1) s.toList).map fun cs => (⟨cs⟩ : String)
  if l.isEmpty then none else some l

/-- Model of `re.test(s)` for an unanchored `re`: some position admits a match. -/
def jsTest (m : Matcher) (s : String) : Bool :=
  (List.range (s.toList.length + 1)).any fun i => !(m (s.toList.drop i)).isEmpty

/-! ### validateCoFField (advancedCoFExtractor.js lines 116-186) -/

/-- Result object of `validateCoFField`; `confidence` and
`normalizedValue` are absent (`none`) on the invalid branches. -/
structure ValidationOutcome where
  valid : Bool
  confidence : Option String
  normalizedValue : Option String
deriving DecidableEq, Repr

/-- The `{ valid: false, reason: ... }` shape (reasons are not modelled). -/
def invalidOutcome : ValidationOutcome := ⟨false, none, none⟩

def validRegions : List String := ["NA", "EMEA", "APAC", "LATAM"]

/-- The `poc` regex as written in the source:
`/^[a-zA-Z0-9._%+-]+@[a-zA-Z0-9.-]+\\.[a-zA-Z]{2,}$/` — note the
doubled backslash: `\\` matches one literal backslash and the following
`.` is the any-character metacharacter. -/
def pocMatcher : Matcher :=
  mSeqs [
    mPlus (mCharP (fun c => c.isAlpha || c.isDigit || c = '.' || c = '_' || c = '%' || c = '+' || c = '-')),
    mChar false '@',
    mPlus (mCharP (fun c => c.isAlpha || c.isDigit || c = '.' || c = '-')),
    mChar false '\\',
    mAnyNotNL,
    mAtLeast 2 (mCharP Char.isAlpha),
    mEnd]

/-- Anchored test of the `poc` regex (anchored by `^...$`, so only
position 0 is tried and `mEnd` closes the pattern). -/
def pocRegexAccepts (v : String) : Bool := !(pocMatcher v.toList).isEmpty

/-- The corporate-suffix regex of the `company_name` case:
`/\b(ltd|inc|llc|corp|corporation|solutions|enterprises|labs|systems|co|limited|s\.a)\b/i`
written in the source with doubled backslashes, so `\\b` is a literal
backslash followed by a literal `b`, and `s\\.a` is `s`, a literal
backslash, any character, `a`. -/
def corpSuffixMatcher : Matcher :=
  let bsb := mSeq (mChar false '\\') (mChar true 'b')
  let word := mAlts
    ((["ltd", "inc", "llc", "corp", "corporation", "solutions", "enterprises",
       "labs", "systems", "co", "limited"].map mStrCI) ++
     [mSeqs [mChar true 's', mChar false '\\', mAnyNotNL, mChar true 'a']])
  mSeqs [bsb, word, bsb]

/-- The `currency` regex `/^(USD|EUR|GBP|CAD|AUD|JPY)$/i` tests whether
the whole value equals one of the codes up to case. -/
def currencyCodes : List String := ["USD", "EUR", "GBP", "CAD", "AUD", "JPY"]

/-- Model of `validateCoFField(fieldName, value)`.  `value` is `none`
for JS `null`/`undefined`, which (like `''` and `'N/A'`) fail the
leading guard. -/
def validateCoFField (fieldName : String) (value : Option String) : ValidationOutcome :=
  match value with
  | none => invalidOutcome
  | some v =>
    if v = "" || v = "N/A" then invalidOutcome
    else if lowerStr fieldName = "pod" then
      let upperValue := upperStr v
      if validRegions.contains upperValue then ⟨true, some "high", some upperValue⟩
      else invalidOutcome
    else if lowerStr fieldName = "floor_amount_match" then
      let floorStr := digitsOf v
      match parseIntJS floorStr with
      | none => invalidOutcome
      | some n =>
        if n < 50 then invalidOutcome
        else ⟨true, some (if 1000 ≤ n then "high" else "medium"), some floorStr⟩
    else if lowerStr fieldName = "company_name" then
      if v.toList.length < 3 || 100 < v.toList.length then invalidOutcome
      else ⟨true, some (if jsTest corpSuffixMatcher v then "high" else "medium"),
            some (jsTrim v)⟩
    else if lowerStr fieldName = "period" then
      match parseIntJS (digitsOf v) with
      | none => invalidOutcome
      | some n =>
        if n < 1 || 120 < n then invalidOutcome
        else ⟨true, some "high", some (natToString n)⟩
    else if lowerStr fieldName = "currency" then
      if currencyCodes.contains (upperStr v) then ⟨true, some "high", some (upperStr v)⟩
      else if v = "$" then ⟨true, some "high", some "USD"⟩
      else if v = "€" then ⟨true, some "high", some "EUR"⟩
      else if v = "£" then ⟨true, some "high", some "GBP"⟩
      else if v = "¥" then ⟨true, some "high", some "JPY"⟩
      else invalidOutcome
    else if lowerStr fieldName = "poc" then
      if pocRegexAccepts v then ⟨true, some "high", some v⟩
      else invalidOutcome
    else
      ⟨decide (0 < v.toList.length) && decide (v.toList.length < 500),
       some "medium", some (jsTrim v)⟩

/-! ### extractCustomerDetailsSection (advancedCoFExtractor.js lines 45-68)

All five patterns are written with doubled backslashes, so `\\s*` is a
literal backslash followed by zero or more letters `s`, and the class
`[\\s\\S]` contains exactly the backslash, `s` and `S`. -/

/-- The regex fragment `\\s*` (literal backslash, then greedy `s*`). -/
def mBSs : Matcher := mSeq (mChar false '\\') (mStarG (mChar true 's'))

/-- The regex fragment `\\b` (literal backslash, then a literal `b`). -/
def mBSb : Matcher := mSeq (mChar false '\\') (mChar true 'b')

/-- The fragment `[\\s\\S]*?`: a lazy star over the class containing a
backslash, `s` and `S`. -/
def bsClassStarL : Matcher := mStarL (mCharP (fun c => c = '\\' || c = 's' || c = 'S'))

def feesPaymentTerms : Matcher :=
  mSeqs [mStrCI "fees", mBSs, mOpt (mChar false '&'), mBSs, mStrCI "payment", mBSs, mStrCI "terms"]

def paymentTerms : Matcher := mSeqs [mStrCI "payment", mBSs, mStrCI "terms"]

def financialTerms : Matcher := mSeqs [mStrCI "financial", mBSs, mStrCI "terms"]

def projectDetails : Matcher := mSeqs [mStrCI "project", mBSs, mStrCI "details"]

/-- Lookahead closing patterns 1-3 of `customerDetailsPatterns`. -/
def sectionLookA : Matcher :=
  mLook (mAlts [feesPaymentTerms, paymentTerms, mStrCI "billing", financialTerms, mEnd])

/-- Lookahead of pattern 4 (adds `project\\s*details`). -/
def sectionLookB : Matcher :=
  mLook (mAlts [feesPaymentTerms, paymentTerms, mStrCI "billing", financialTerms,
                projectDetails, mEnd])

/-- Lookahead of pattern 5 (swaps `financial terms` for `project details` and `docusign`). -/
def sectionLookC : Matcher :=
  mLook (mAlts [feesPaymentTerms, paymentTerms, mStrCI "billing", projectDetails,
                mStrCI "docusign", mEnd])

def customerDetailsPatterns : List Matcher := [
  mSeqs [mStrCI "customer", mBSs, mStrCI "details", bsClassStarL, sectionLookA],
  mSeqs [mStrCI "customer", mBSs, mStrCI "information", bsClassStarL, sectionLookA],
  mSeqs [mStrCI "client", mBSs, mStrCI "details", bsClassStarL, sectionLookA],
  mSeqs [mStrCI "salesforce", mBSs, mStrCI "opportunity", mBSs, mStrCI "details",
         bsClassStarL, sectionLookB],
  mSeqs [mStrCI "financial", mBSs, mStrCI "terms", bsClassStarL, sectionLookC]]

/-- The pattern loop: return the first pattern's first match when it is
longer than 50 characters (a match of positive length is also truthy),
else fall through; with no qualifying match the full text is returned. -/
def findSectionAux : List Matcher → String → String
  | [], t => t
  | p :: ps, t =>
    match jsMatch p t with
    | some (m0 :: _) => if 50 < m0.toList.length then m0 else findSectionAux ps t
    | _ => findSectionAux ps t

def extractCustomerDetailsSection (text : String) : String :=
  if text = "" then "" else findSectionAux customerDetailsPatterns text

/-! ### extractFieldsFromOCRText (advancedCoFExtractor.js lines 305-420) -/

/-- JS `a || b` on possibly-absent strings: an absent or empty left
operand is falsy. -/
def jsOr (a b : Option String) : Option String :=
  match a with
  | some s => if s = "" then b else some s
  | none => b

def regionAlt : Matcher := mAlts [mStrCI "NA", mStrCI "EMEA", mStrCI "APAC", mStrCI "LATAM"]

/-- The class `[xX✓]`. -/
def xMark : Matcher := mCharP (fun c => c = 'x' || c = 'X' || c = '✓')

def regionPatterns : List Matcher := [
  mSeqs [mStrCI "region", mBSs, mOpt (mChar false ':'), mBSs, regionAlt],
  mSeqs [mBSb, regionAlt, mBSb, mStarL mAnyNotNL, xMark],
  mSeqs [xMark, mStarL mAnyNotNL, regionAlt]]

/-- The inner rescan `match[0].match(/(NA|EMEA|APAC|LATAM)/gi)?.[0]`. -/
def podInnerRegion (m0 : String) : Option String :=
  (jsMatch regionAlt m0).bind fun l => l.get? 0

/-- The `pod` case of the field switch: `region = match[1] || inner`,
kept only when truthy, upper-cased. -/
def podValue : List Matcher → String → Option String
  | [], _ => none
  | p :: ps, st =>
    match jsMatch p st with
    | none => podValue ps st
    | some ms =>
      match jsOr (ms.get? 1) (podInnerRegion (ms.headD "")) with
      | some r => if r = "" then podValue ps st else some (upperStr r)
      | none => podValue ps st

/-- The group `([£$€¥]?\\s*\\d{1,8}(?:[,']\\d{3})*)`; `\\d` is a
literal backslash followed by `d` repeated, `[,']` is the two-character
class of a comma and an apostrophe. -/
def amountGroup : Matcher :=
  mSeqs [mOpt (mCharP (fun c => c = '£' || c = '$' || c = '€' || c = '¥')),
         mBSs, mChar false '\\', mCount 1 8 (mChar true 'd'),
         mStarG (mSeqs [mCharP (fun c => c = ',' || c = Char.ofNat 39),
                        mChar false '\\', mExact 3 (mChar true 'd')])]

def floorPatterns : List Matcher := [
  mSeqs [mStrCI "floor", mBSs, mStrCI "price", mBSs, mOpt (mChar false ':'), mBSs, amountGroup],
  mSeqs [mStrCI "floor", mBSs, mStrCI "amount", mBSs, mOpt (mChar false ':'), mBSs, amountGroup],
  mSeqs [mStrCI "minimum", mBSs, mStrCI "spend", mBSs, mOpt (mChar false ':'), mBSs, amountGroup]]

/-- The `floor_amount_match` case.  With the `g` flag `match[1]` is the
second full match, not a capture: when a pattern has exactly one match,
`match[1]` is `undefined` and `match[1].replace(...)` throws a
`TypeError`, aborting the whole field loop (modelled by `Except`). -/
def floorValue : List Matcher → String → Except Unit (Option String)
  | [], _ => Except.ok none
  | p :: ps, st =>
    match jsMatch p st with
    | none => floorValue ps st
    | some ms =>
      match ms.get? 1 with
      | none => Except.error ()
      | some m1 =>
        let amount := digitsOf m1
        if amount ≠ "" then
          match parseIntJS amount with
          | some n => if 50 ≤ n then Except.ok (some amount) else floorValue ps st
          | none => floorValue ps st
        else floorValue ps st

/-- The class `[A-Za-z0-9\\s.,&\\-]`: alphanumerics, a literal
backslash, the letter `s` (already alphanumeric), dot, comma, ampersand
and hyphen. -/
def companyClassChar (c : Char) : Bool :=
  c.isAlpha || c.isDigit || c = '\\' || c = '.' || c = ',' || c = '&' || c = '-'

/-- The suffix alternation; `S\\.A` is `S`, a literal backslash, any
character, `A` (case-insensitively). -/
def corpWordsAlt : Matcher :=
  mAlts ((["Ltd", "Inc", "LLC", "Corp", "Corporation", "Solutions", "Enterprises",
           "Labs", "Systems", "Co", "Limited"].map mStrCI) ++
         [mSeqs [mChar true 'S', mChar false '\\', mAnyNotNL, mChar true 'A']])

def companyPatterns : List Matcher := [
  mSeqs [mStrCI "company", mBSs, mOpt (mChar false ':'), mBSs,
         mCount 3 80 (mCharP companyClassChar), corpWordsAlt],
  mSeqs [mBSb, mCount 3 60 (mCharP companyClassChar), mBSs, corpWordsAlt, mBSb]]

/-- The anchored replace pattern `/^company\\s*:?\\s*/gi`: anchoring at
the start means at most the leading match is removed. -/
def companyLabelMatcher : Matcher :=
  mSeqs [mStrCI "company", mBSs, mOpt (mChar false ':'), mBSs]

def stripCompanyLabel (s : String) : String :=
  match companyLabelMatcher s.toList with
  | p :: _ => ⟨s.toList.drop p.1.length⟩
  | [] => s

/-- The `company_name` case: `company = match[1] || match[0]`, strip the
label, trim, keep when the length is in (2, 100). -/
def companyValue : List Matcher → String → Option String
  | [], _ => none
  | p :: ps, st =>
    match jsMatch p st with
    | none => companyValue ps st
    | some ms =>
      match jsOr (ms.get? 1) (ms.get? 0) with
      | some c0 =>
        let company := jsTrim (stripCompanyLabel c0)
        if 2 < company.toList.length && company.toList.length < 100 then some company
        else companyValue ps st
      | none => companyValue ps st

def periodPatterns : List Matcher := [
  mSeqs [mStrCI "contract", mBSs, mStrCI "period", mBSs, mOpt (mChar false ':'), mBSs,
         mStarL mAnyNotNL, mChar false '\\', mCount 1 3 (mChar true 'd'),
         mBSs, mStrCI "month", mOpt (mChar true 's')],
  mSeqs [mStrCI "period", mBSs, mOpt (mChar false ':'), mBSs,
         mChar false '\\', mCount 1 3 (mChar true 'd'),
         mBSs, mStrCI "month", mOpt (mChar true 's')],
  mSeqs [mBSb, mChar false '\\', mCount 1 2 (mChar true 'd'),
         mBSs, mStrCI "month", mOpt (mChar true 's'), mBSb]]

/-- The `period` case: `parseInt(match[1])` (the second full match, or
`undefined` giving `NaN`), kept when within 1..120. -/
def periodValue : List Matcher → String → Option String
  | [], _ => none
  | p :: ps, st =>
    match jsMatch p st with
    | none => periodValue ps st
    | some ms =>
      match ms.get? 1 with
      | none => periodValue ps st
      | some m1 =>
        match parseIntJS m1 with
        | none => periodValue ps st
        | some m => if 1 ≤ m && m ≤ 120 then some (natToString m) else periodValue ps st

/-- The class of the generic pattern, `[A-Za-z0-9\s.,#\-\/]`: built via
a template string, its `\s` really is the whitespace class. -/
def genericClassChar (c : Char) : Bool :=
  c.isAlpha || c.isDigit || c.isWhitespace || c = '.' || c = ',' || c = '#' || c = '-' || c = '/'

/-- Split on underscores (structural model of `fieldName.split`-style
decomposition used to read off `fieldName.replace(/_/g, ...)`). -/
def splitOnUnd : List Char → List (List Char)
  | [] => [[]]
  | c :: cs =>
    let r := splitOnUnd cs
    if c = '_' then [] :: r
    else
      match r with
      | h :: t => (c :: h) :: t
      | [] => [[c]]

def splitUnderscore (s : String) : List String :=
  (splitOnUnd s.toList).map fun cs => (⟨cs⟩ : String)

/-- The field-name part of the generic pattern:
`fieldName.replace(/_/g, '\\\\s*')` turns every underscore into the
regex fragment `\\s*` (a literal backslash then `s*`). -/
def genericPartsMatcher : List String → Matcher
  | [] => mEps
  | [p] => mStrCI p
  | p :: ps => mSeqs [mStrCI p, mBSs, genericPartsMatcher ps]

def genericMatcher (fieldName : String) : Matcher :=
  mSeqs [genericPartsMatcher (splitUnderscore fieldName), mBSs, mOpt (mChar false ':'), mBSs,
         mCount 1 100 (mCharP genericClassChar)]

/-- The default case: `genericMatch[1]` is the second full match; the
value is kept (trimmed) only when that entry exists and is truthy. -/
def genericValue (fieldName : String) (st : String) : Option String :=
  match jsMatch (genericMatcher fieldName) st with
  | none => none
  | some ms =>
    match ms.get? 1 with
    | none => none
    | some m1 => if m1 = "" then none else some (jsTrim m1)

/-- One iteration of the field loop (the switch on the lower-cased name). -/
def ocrFieldValue (st : String) (fieldNameLower : String) : Except Unit (Option String) :=
  if fieldNameLower = "pod" then Except.ok (podValue regionPatterns st)
  else if fieldNameLower = "floor_amount_match" then floorValue floorPatterns st
  else if fieldNameLower = "company_name" then Except.ok (companyValue companyPatterns st)
  else if fieldNameLower = "period" then Except.ok (periodValue periodPatterns st)
  else Except.ok (genericValue fieldNameLower st)

/-- A requested field.  Only `name` is consumed by the embedded logic
(`displayName` and `description` feed the LLM prompt text, which is not
modelled). -/
structure FieldSpec where
  name : String
deriving DecidableEq, Repr

/-- The field loop: `extractedData[field.name] = value` for each field;
a thrown `TypeError` aborts the loop. -/
def buildOCRData (st : String) : List FieldSpec → Except Unit (List (String × Option String))
  | [] => Except.ok []
  | f :: fs =>
    match ocrFieldValue st (lowerStr f.name) with
    | Except.error e => Except.error e
    | Except.ok v =>
      match buildOCRData st fs with
      | Except.error e => Except.error e
      | Except.ok rest => Except.ok ((f.name, v) :: rest)

structure OCRResult where
  success : Bool
  data : List (String × Option String)
  extractedFields : Nat
deriving DecidableEq, Repr

/-- Count of entries whose value is not null. -/
def countNonNull (d : List (String × Option String)) : Nat :=
  (d.filter fun p => p.2.isSome).length

/-- The search text: `customerSection || text` (an empty section is falsy). -/
def ocrSearchText (text : String) : String :=
  let customerSection := extractCustomerDetailsSection text
  if customerSection = "" then text else customerSection

def extractFieldsFromOCRText (text : String) (fields : List FieldSpec) : OCRResult :=
  match buildOCRData (ocrSearchText text) fields with
  | Except.error _ => ⟨false, [], 0⟩
  | Except.ok data =>
    let successfulFields := countNonNull data
    ⟨decide (0 < successfulFields), data, successfulFields⟩

/-! ### extractFields (advancedCoFExtractor.js lines 425-571)

An LLM adapter attempt is modelled by its observable outcome: `none`
when the adapter is unavailable, errors, or produces no parseable JSON
(all treated identically by the loop), and `some` a parsed candidate
otherwise. -/

structure Candidate where
  data : List (String × Option String)
  method : String
deriving DecidableEq, Repr

/-- Model of `result.data[field.name]`: an absent key (`undefined`) and
an explicit `null` are both `none` (they behave identically downstream). -/
def rawLookup (d : List (String × Option String)) (k : String) : Option String :=
  match d.lookup k with
  | some v => v
  | none => none

def criticalFields : List String := ["floor_amount_match", "company_name", "opportunity_name"]

/-- `validation.valid ? (validation.normalizedValue || value) : null`
(an empty normalized value is falsy, falling back to the raw value). -/
def chooseVal (o : ValidationOutcome) (raw : Option String) : Option String :=
  if o.valid then
    match o.normalizedValue with
    | some nv => if nv = "" then raw else some nv
    | none => raw
  else none

/-- Validation pass over a candidate: the validated data in field order,
and `criticalFieldsFound`. -/
def validateData (fields : List FieldSpec) (raw : List (String × Option String)) :
    List (String × Option String) × Nat :=
  (fields.map fun f =>
     (f.name, chooseVal (validateCoFField f.name (rawLookup raw f.name)) (rawLookup raw f.name)),
   fields.countP fun f =>
     criticalFields.contains (lowerStr f.name) && (validateCoFField f.name (rawLookup raw f.name)).valid)

structure BestResult where
  data : List (String × Option String)
  method : String
  criticalFieldsFound : Nat
deriving DecidableEq, Repr

/-- The adapter loop (lines 451-486), also counting how many adapters
were invoked; a candidate replaces the best only on a strictly larger
`criticalFieldsFound`, and the loop breaks once all three critical
fields are found. -/
def runAdapters (fields : List FieldSpec) :
    List (Option Candidate) → Option BestResult → Nat → Option BestResult × Nat
  | [], best, invoked => (best, invoked)
  | a :: rest, best, invoked =>
    match a with
    | none => runAdapters fields rest best (invoked + 1)
    | some c =>
      let vd := validateData fields c.data
      let cand : BestResult := ⟨vd.1, c.method, vd.2⟩
      let best' : Option BestResult :=
        match best with
        | none => some cand
        | some b => if b.criticalFieldsFound < vd.2 then some cand else some b
      if criticalFields.length ≤ vd.2 then (best', invoked + 1)
      else runAdapters fields rest best' (invoked + 1)

/-- The returned result object; `criticalFieldsFound` and
`customerDetailsFound` are absent (`none`) on the return paths that do
not set them. -/
structure ExtractionResult where
  success : Bool
  data : List (String × Option String)
  method : String
  error : Option String
  extractedFields : Nat
  totalFields : Nat
  criticalFieldsFound : Option Nat
  customerDetailsFound : Option Bool
deriving DecidableEq, Repr

/-- createEmptyResult (lines 557-571). -/
def createEmptyResult (fields : List FieldSpec) : ExtractionResult :=
  ⟨false, fields.map (fun f => (f.name, none)), "Advanced CoF Extraction",
   some "No extraction methods succeeded", 0, fields.length, none, none⟩

/-- The catch-all result of the outer try (lines 523-530). -/
def errorResult (fields : List FieldSpec) (msg : String) : ExtractionResult :=
  ⟨false, (createEmptyResult fields).data, "Advanced CoF Extraction (Error)",
   some msg, 0, fields.length, none, none⟩

/-- fallbackToOCR (lines 537-552).  Despite its name and its unused
`pdfPath` parameter it only reruns the pattern extractor on the empty
string; the OCR service is never invoked. -/
def fallbackToOCR (fields : List FieldSpec) : ExtractionResult :=
  let ocrResult := extractFieldsFromOCRText "" fields
  if ocrResult.success then
    ⟨decide (0 < ocrResult.extractedFields), ocrResult.data, "OCR Fallback", none,
     ocrResult.extractedFields, fields.length, none, none⟩
  else createEmptyResult fields

/-- Lines 488-501: when no candidate reached two critical fields, and
only when a document path is present, replace the best candidate with
the pattern-extractor result (provided it succeeded with at least one
field), recording `criticalFieldsFound` as 0. -/
def chooseBest (text : String) (fields : List FieldSpec) (pdfPath : Option String)
    (best0 : Option BestResult) : Option BestResult :=
  if (match best0 with | none => true | some b => b.criticalFieldsFound < 2) then
    match pdfPath with
    | some _ =>
      let ocrResult := extractFieldsFromOCRText text fields
      if ocrResult.success && decide (0 < ocrResult.extractedFields) then
        some ⟨ocrResult.data, "OCR Fallback", 0⟩
      else best0
    | none => best0
  else best0

/-- Lines 503-517: the final ExtractionResult from the chosen best
candidate (`criticalFieldsFound || 0` is the identity on a Nat). -/
def finalResult (fields : List FieldSpec) (customerSection : String) :
    Option BestResult → ExtractionResult
  | none => createEmptyResult fields
  | some b =>
    let successfulFields := countNonNull b.data
    ⟨decide (0 < successfulFields), b.data, b.method, none, successfulFields,
     fields.length, some b.criticalFieldsFound,
     some (decide (0 < customerSection.toList.length))⟩

/-- extractFields (lines 425-532), the orchestrator. -/
def extractFields (text : String) (fields : List FieldSpec)
    (adapters : List (Option Candidate)) (pdfPath : Option String) : ExtractionResult :=
  if jsTrim text = "" then
    match pdfPath with
    | some _ => fallbackToOCR fields
    | none => createEmptyResult fields
  else
    finalResult fields (extractCustomerDetailsSection text)
      (chooseBest text fields pdfPath (runAdapters fields adapters none 0).1)

/-! ### scanFolderRecursively (folderReader.js lines 245-347)

The directory tree is modelled as an inductive forest; every entry is
readable (the per-entry permission-error skips do not change any of the
properties proved here, they only remove entries).  A collected file is
reported as its path below the scanned root: the list of directory
names descended through, ending with the file name. -/

inductive FSEntry where
  | file (name : String)
  | dir (name : String) (children : List FSEntry)
deriving Repr

def FSEntry.name : FSEntry → String
  | .file n => n
  | .dir n _ => n

/-- Model of Node `path.extname`: the suffix from the last dot, unless
that dot is the leading character. -/
def extname (n : String) : String :=
  let cs := n.toList
  match (List.range cs.length).foldl
      (fun acc i => if 0 < i && cs.getD i ' ' = '.' then some i else acc) none with
  | some i => ⟨cs.drop i⟩
  | none => ""

def maxDepth : Nat := 15

def skipDirs : List String :=
  ["node_modules", ".git", ".vscode", ".vs", "dist", "build", ".next", "__pycache__",
   "target", "bin", "obj", ".gradle", ".idea",
   "temp", "tmp", "cache", "logs", "log", "backup", "backups",
   "System Volume Information", "Windows", "$Recycle.Bin", "Recovery"]

/-- The skip test of the first (files) loop: names starting with a dot,
dollar or tilde. -/
def hiddenEntry (n : String) : Bool :=
  strStartsWith n "." || strStartsWith n "$" || strStartsWith n "~"

/-- Model of JS `String.prototype.includes`: `needle` occurs as a
contiguous substring of `hay`. -/
def containsSub (hay needle : List Char) : Bool :=
  (List.range (hay.length + 1)).any fun i => needle.isPrefixOf (hay.drop i)

/-- The skip test of the second (directories) loop: a leading dot or
dollar (note: no tilde), or a case-insensitive denylist substring. -/
def skippedDirEntry (n : String) : Bool :=
  strStartsWith n "." || strStartsWith n "$" ||
    skipDirs.any fun d => containsSub (lowerStr n).toList (lowerStr d).toList

/-- The first loop of `scanFolderRecursively`: collect `.pdf` files of
the current directory; the boolean is `true` when the
`files.length >= maxFiles` early `return files` fired. -/
def filesPass (pre : List String) (maxFiles : Nat) :
    List FSEntry → List (List String) → List (List String) × Bool
  | [], acc => (acc, false)
  | e :: rest, acc =>
    if hiddenEntry e.name then filesPass pre maxFiles rest acc
    else
      match e with
      | .dir _ _ => filesPass pre maxFiles rest acc
      | .file n =>
        if lowerStr (extname n) = ".pdf" then
          let acc' := acc ++ [pre ++ [n]]
          if maxFiles ≤ acc'.length then (acc', true) else filesPass pre maxFiles rest acc'
        else filesPass pre maxFiles rest acc

/-- The second loop: descend into non-skipped subdirectories through
the recursion closure `recur`, passing `maxFiles - files.length` as the
child budget and breaking once `files.length >= maxFiles`. -/
def dirsGo (recur : String → List FSEntry → Nat → List (List String)) (maxFiles : Nat) :
    List FSEntry → List (List String) → List (List String)
  | [], acc => acc
  | e :: rest, acc =>
    if skippedDirEntry e.name then dirsGo recur maxFiles rest acc
    else
      match e with
      | .file _ => dirsGo recur maxFiles rest acc
      | .dir n ch =>
        let acc' := acc ++ recur n ch (maxFiles - acc.length)
        if maxFiles ≤ acc'.length then acc' else dirsGo recur maxFiles rest acc'

/-- The body of `scanFolderRecursively`, fuelled so that every call is
structural.  The fuel mirrors the depth guard: the entry point passes
`maxDepth + 1` at depth 0 and every recursive call increments `depth`
while decrementing the fuel, so the fuel is exhausted only beyond the
depth cutoff (where the source returns `[]` anyway). -/
def scanDirAux : Nat → List String → List FSEntry → Nat → Nat → List (List String)
  | 0, _, _, _, _ => []
  | gas + 1, pre, items, depth, maxFiles =>
    if maxDepth < depth then []
    else
      match filesPass pre maxFiles items [] with
      | (acc, true) => acc
      | (acc, false) =>
        if acc.length < maxFiles && depth < maxDepth then
          dirsGo (fun n ch b => scanDirAux gas (pre ++ [n]) ch (depth + 1) b)
            maxFiles items acc
        else acc

/-- scanFolderRecursively(folderPath, 0, maxFiles) on the forest of
entries below the root. -/
def scanFolderRecursively (items : List FSEntry) (maxFiles : Nat) : List (List String) :=
  scanDirAux (maxDepth + 1) [] items 0 maxFiles

/-! ## Supporting lemmas -/

theorem isDigit_not_isWhitespace (c : Char) (h : c.isDigit = true) : c.isWhitespace = false := by
  rcases hw : c.isWhitespace with _ | _
  · rfl
  · exfalso
    simp [Char.isWhitespace] at hw
    rcases hw with ((h1 | h1) | h1) | h1 <;> subst h1 <;> simp at h

theorem dropWhile_idem {α : Type} (p : α → Bool) (l : List α) :
    List.dropWhile p (List.dropWhile p l) = List.dropWhile p l := by
  induction l with
  | nil => rfl
  | cons a l ih => by_cases h : p a <;> simp [List.dropWhile_cons, h, ih]

theorem trimList_front (cs : List Char) :
    List.dropWhile Char.isWhitespace (trimList cs) = trimList cs := by
  unfold trimList
  rcases hX : ((cs.dropWhile Char.isWhitespace).reverse.dropWhile Char.isWhitespace).reverse
    with _ | ⟨a, xs⟩
  · rfl
  · have hpre : (a :: xs) <+: cs.dropWhile Char.isWhitespace := by
      rw [← List.reverse_suffix, ← hX, List.reverse_reverse]
      exact List.dropWhile_suffix _
    obtain ⟨t, ht⟩ := hpre
    have hhead := List.head?_dropWhile_not Char.isWhitespace cs
    rw [← ht] at hhead
    simp at hhead
    simp [List.dropWhile_cons, hhead]

theorem trimList_idem (cs : List Char) : trimList (trimList cs) = trimList cs := by
  have h1 := trimList_front cs
  show ((List.dropWhile Char.isWhitespace (trimList cs)).reverse.dropWhile
      Char.isWhitespace).reverse = trimList cs
  rw [h1]
  show ((trimList cs).reverse.dropWhile Char.isWhitespace).reverse = trimList cs
  have h2 : (trimList cs).reverse =
      List.dropWhile Char.isWhitespace ((cs.dropWhile Char.isWhitespace).reverse) := by
    unfold trimList
    rw [List.reverse_reverse]
  rw [h2, dropWhile_idem, ← h2, List.reverse_reverse]

theorem jsTrim_idem (s : String) : jsTrim (jsTrim s) = jsTrim s :=
  congrArg String.mk (trimList_idem s.toList)

theorem digitsOf_digitsOf (s : String) : digitsOf (digitsOf s) = digitsOf s := by
  unfold digitsOf
  exact congrArg String.mk (by simp [List.filter_filter])

theorem digitsOf_all_digits (s : String) : ∀ c ∈ (digitsOf s).toList, c.isDigit = true := by
  intro c hc
  unfold digitsOf at hc
  exact (List.mem_filter.mp hc).2

theorem digitsOf_ne_NA (s : String) : digitsOf s ≠ "N/A" := by
  intro h
  have : 'N' ∈ (digitsOf s).toList := by rw [h]; decide
  have := digitsOf_all_digits s 'N' this
  simp at this

theorem parseIntJS_some_ne_empty {s : String} {n : Nat} (h : parseIntJS s = some n) :
    s ≠ "" := by
  intro he
  subst he
  simp [parseIntJS] at h

theorem all_digits_dropWhile_ws {l : List Char} (h : ∀ c ∈ l, c.isDigit = true) :
    List.dropWhile Char.isWhitespace l = l := by
  rw [List.dropWhile_eq_self_iff]
  intro hl hws
  have := isDigit_not_isWhitespace _ (h _ (l.get_mem 0 hl))
  rw [this] at hws
  exact Bool.false_ne_true hws

theorem parseIntJS_all_digits (s : String) (h : ∀ c ∈ s.toList, c.isDigit = true) :
    parseIntJS s = if s.toList.isEmpty then none else some (digitsVal s.toList) := by
  unfold parseIntJS
  rw [all_digits_dropWhile_ws h, List.takeWhile_eq_self_iff.mpr h]

theorem digitChar_isDigit {r : Nat} (h : r < 10) : (Nat.digitChar r).isDigit = true := by
  interval_cases r <;> decide

theorem digitChar_toNat {r : Nat} (h : r < 10) : (Nat.digitChar r).toNat - 48 = r := by
  interval_cases r <;> decide

theorem decDigitsAux_spec : ∀ fuel n, n < fuel →
    decDigitsAux fuel n ≠ [] ∧ (∀ c ∈ decDigitsAux fuel n, c.isDigit = true) ∧
      digitsVal (decDigitsAux fuel n) = n := by
  intro fuel
  induction fuel with
  | zero => intro n h; omega
  | succ fuel ih =>
    intro n h
    by_cases h10 : n < 10
    · refine ⟨by simp [decDigitsAux, h10], ?_, ?_⟩
      · intro c hc
        simp [decDigitsAux, h10] at hc
        subst hc
        exact digitChar_isDigit h10
      · simp [decDigitsAux, h10, digitsVal, digitChar_toNat h10]
    · have hdiv : n / 10 < fuel := by
        have h1 : n / 10 < n := Nat.div_lt_self (by omega) (by omega)
        omega
      obtain ⟨ih1, ih2, ih3⟩ := ih (n / 10) hdiv
      have hmod : n % 10 < 10 := Nat.mod_lt _ (by omega)
      refine ⟨by simp [decDigitsAux, h10], ?_, ?_⟩
      · intro c hc
        simp [decDigitsAux, h10] at hc
        rcases hc with hc | hc
        · exact ih2 c hc
        · subst hc; exact digitChar_isDigit hmod
      · simp only [decDigitsAux, h10, if_false]
        unfold digitsVal
        rw [List.foldl_append]
        show (digitsVal (decDigitsAux fuel (n / 10))) * 10 + ((Nat.digitChar (n % 10)).toNat - 48) = n
        rw [ih3, digitChar_toNat hmod]
        omega

theorem natToString_all_digits (n : Nat) : ∀ c ∈ (natToString n).toList, c.isDigit = true :=
  (decDigitsAux_spec (n + 1) n (Nat.lt_succ_self n)).2.1

theorem natToString_ne_empty (n : Nat) : natToString n ≠ "" := by
  intro h
  exact (decDigitsAux_spec (n + 1) n (Nat.lt_succ_self n)).1 (congrArg String.data h)

theorem natToString_ne_NA (n : Nat) : natToString n ≠ "N/A" := by
  intro h
  have : 'N' ∈ (natToString n).toList := by rw [h]; decide
  have := natToString_all_digits n 'N' this
  simp at this

theorem parseIntJS_natToString (n : Nat) : parseIntJS (natToString n) = some n := by
  rw [parseIntJS_all_digits _ (natToString_all_digits n)]
  obtain ⟨h1, _, h3⟩ := decDigitsAux_spec (n + 1) n (Nat.lt_succ_self n)
  have hne : (natToString n).toList.isEmpty = false := by
    rcases he : (natToString n).toList with _ | _
    · exact absurd he h1
    · rfl
  rw [hne]
  have he : (natToString n).toList = decDigitsAux (n + 1) n := rfl
  rw [he, h3]
  rfl

theorem digitsOf_natToString (n : Nat) : digitsOf (natToString n) = natToString n := by
  unfold digitsOf
  exact congrArg String.mk (List.filter_eq_self.mpr (natToString_all_digits n))

/-! ### Branch reduction lemmas for validateCoFField -/

theorem validateCoFField_pod (f : String) (h : lowerStr f = "pod") (w : String) :
    validateCoFField f (some w) =
      if w = "" || w = "N/A" then invalidOutcome
      else if validRegions.contains (upperStr w) then ⟨true, some "high", some (upperStr w)⟩
      else invalidOutcome := by
  simp only [validateCoFField, h]
  simp

theorem validateCoFField_floor (f : String) (h : lowerStr f = "floor_amount_match") (w : String) :
    validateCoFField f (some w) =
      if w = "" || w = "N/A" then invalidOutcome
      else
        match parseIntJS (digitsOf w) with
        | none => invalidOutcome
        | some n =>
          if n < 50 then invalidOutcome
          else ⟨true, some (if 1000 ≤ n then "high" else "medium"), some (digitsOf w)⟩ := by
  simp only [validateCoFField, h]
  simp

theorem validateCoFField_company (f : String) (h : lowerStr f = "company_name") (w : String) :
    validateCoFField f (some w) =
      if w = "" || w = "N/A" then invalidOutcome
      else if w.toList.length < 3 || 100 < w.toList.length then invalidOutcome
      else ⟨true, some (if jsTest corpSuffixMatcher w then "high" else "medium"),
            some (jsTrim w)⟩ := by
  simp only [validateCoFField, h]
  simp

theorem validateCoFField_period (f : String) (h : lowerStr f = "period") (w : String) :
    validateCoFField f (some w) =
      if w = "" || w = "N/A" then invalidOutcome
      else
        match parseIntJS (digitsOf w) with
        | none => invalidOutcome
        | some n =>
          if n < 1 || 120 < n then invalidOutcome
          else ⟨true, some "high", some (natToString n)⟩ := by
  simp only [validateCoFField, h]
  simp

theorem validateCoFField_currency (f : String) (h : lowerStr f = "currency") (w : String) :
    validateCoFField f (some w) =
      if w = "" || w = "N/A" then invalidOutcome
      else if currencyCodes.contains (upperStr w) then ⟨true, some "high", some (upperStr w)⟩
      else if w = "$" then ⟨true, some "high", some "USD"⟩
      else if w = "€" then ⟨true, some "high", some "EUR"⟩
      else if w = "£" then ⟨true, some "high", some "GBP"⟩
      else if w = "¥" then ⟨true, some "high", some "JPY"⟩
      else invalidOutcome := by
  simp only [validateCoFField, h]
  simp

theorem validateCoFField_poc (f : String) (h : lowerStr f = "poc") (w : String) :
    validateCoFField f (some w) =
      if w = "" || w = "N/A" then invalidOutcome
      else if pocRegexAccepts w then ⟨true, some "high", some w⟩
      else invalidOutcome := by
  simp only [validateCoFField, h]
  simp

theorem validateCoFField_default (f : String)
    (h1 : lowerStr f ≠ "pod") (h2 : lowerStr f ≠ "floor_amount_match")
    (h3 : lowerStr f ≠ "company_name") (h4 : lowerStr f ≠ "period")
    (h5 : lowerStr f ≠ "currency") (h6 : lowerStr f ≠ "poc") (w : String) :
    validateCoFField f (some w) =
      if w = "" || w = "N/A" then invalidOutcome
      else ⟨decide (0 < w.toList.length) && decide (w.toList.length < 500),
            some "medium", some (jsTrim w)⟩ := by
  simp only [validateCoFField, h1, h2, h3, h4, h5, h6]
  simp [h1, h2, h3, h4, h5, h6]

/-! ## Claim theorems: field validation (C6, C7, C8) -/

theorem currency_code_self (f : String) (hcur : lowerStr f = "currency") (c : String)
    (hc : c ∈ currencyCodes) : validateCoFField f (some c) = ⟨true, some "high", some c⟩ := by
  rw [validateCoFField_currency f hcur]
  fin_cases hc <;> decide

/-- C8 as amended: re-validating a produced normalizedValue never
accepts a different normalized value, and for the pod,
floor_amount_match, period, currency and poc fields re-validation gives
back exactly the original outcome (full idempotence); for the
company-name and generic fields re-validation can reject when trimming
shortened the value below the minimum length (see the counterexample),
but never changes an accepted normalized value. -/
theorem validate_idempotent_on_normalized :
    ∀ fieldName v n, (validateCoFField fieldName (some v)).valid = true →
      (validateCoFField fieldName (some v)).normalizedValue = some n →
      ((validateCoFField fieldName (some n)).valid = true →
         (validateCoFField fieldName (some n)).normalizedValue = some n) ∧
      (lowerStr fieldName = "pod" ∨ lowerStr fieldName = "floor_amount_match" ∨
         lowerStr fieldName = "period" ∨ lowerStr fieldName = "currency" ∨
         lowerStr fieldName = "poc" →
       validateCoFField fieldName (some n) = validateCoFField fieldName (some v)) := by
  intro f v n hval hnorm
  by_cases hv1 : v = ""
  · subst hv1; simp [validateCoFField, invalidOutcome] at hval
  by_cases hv2 : v = "N/A"
  · subst hv2; simp [validateCoFField, invalidOutcome] at hval
  by_cases hpod : lowerStr f = "pod"
  · simp only [validateCoFField_pod f hpod] at hval hnorm ⊢
    by_cases hm : upperStr v ∈ validRegions
    · simp [hv1, hv2, hm] at hnorm
      subst hnorm
      simp [validRegions] at hm
      rcases hm with h | h | h | h <;> rw [h] <;>
        refine ⟨?_, fun _ => ?_⟩ <;> simp [hv1, hv2] <;> decide
    · simp [hv1, hv2, hm, invalidOutcome] at hval
  by_cases hfl : lowerStr f = "floor_amount_match"
  · simp only [validateCoFField_floor f hfl] at hval hnorm ⊢
    simp [hv1, hv2] at hval hnorm
    rcases hp : parseIntJS (digitsOf v) with _ | m
    · rw [hp] at hval; simp [invalidOutcome] at hval
    · rw [hp] at hval hnorm
      by_cases h50 : m < 50
      · simp [h50, invalidOutcome] at hval
      · simp [h50] at hnorm
        subst hnorm
        have hne : digitsOf v ≠ "" := parseIntJS_some_ne_empty hp
        have hna : digitsOf v ≠ "N/A" := digitsOf_ne_NA v
        refine ⟨fun _ => ?_, fun _ => ?_⟩ <;>
          simp [hne, hna, digitsOf_digitsOf, hp, h50, hv1, hv2]
  by_cases hco : lowerStr f = "company_name"
  · simp only [validateCoFField_company f hco] at hval hnorm ⊢
    simp [hv1, hv2] at hval hnorm
    by_cases hbad : v.length < 3 ∨ 100 < v.length
    · simp [hbad, invalidOutcome] at hval
    · simp [hbad] at hnorm
      subst hnorm
      constructor
      · intro hv'
        split_ifs at hv' ⊢ <;> simp_all [invalidOutcome, jsTrim_idem]
      · intro hdisj
        rcases hdisj with h | h | h | h | h <;> rw [hco] at h <;> simp at h
  by_cases hper : lowerStr f = "period"
  · simp only [validateCoFField_period f hper] at hval hnorm ⊢
    simp [hv1, hv2] at hval hnorm
    rcases hp : parseIntJS (digitsOf v) with _ | m
    · rw [hp] at hval; simp [invalidOutcome] at hval
    · rw [hp] at hval hnorm
      by_cases hlo : m = 0
      · simp [hlo, invalidOutcome] at hval
      by_cases hhi : 120 < m
      · simp [hlo, hhi, invalidOutcome] at hval
      simp [hlo, hhi] at hnorm
      subst hnorm
      refine ⟨fun _ => ?_, fun _ => ?_⟩ <;>
        simp [natToString_ne_empty m, natToString_ne_NA m, digitsOf_natToString,
          parseIntJS_natToString, hlo, hhi, hp, hv1, hv2]
  by_cases hcur : lowerStr f = "currency"
  · by_cases hm : upperStr v ∈ currencyCodes
    · have hv : validateCoFField f (some v) = ⟨true, some "high", some (upperStr v)⟩ := by
        rw [validateCoFField_currency f hcur]
        simp [hv1, hv2, hm]
      rw [hv] at hnorm
      simp at hnorm
      subst hnorm
      have hn := currency_code_self f hcur (upperStr v) hm
      rw [hv, hn]
      exact ⟨fun _ => rfl, fun _ => rfl⟩
    · have hsym : v = "$" ∨ v = "€" ∨ v = "£" ∨ v = "¥" := by
        by_contra hall
        push_neg at hall
        obtain ⟨hS1, hS2, hS3, hS4⟩ := hall
        rw [validateCoFField_currency f hcur] at hval
        simp [hv1, hv2, hm, hS1, hS2, hS3, hS4, invalidOutcome] at hval
      have key : ∀ sym code : String, v = sym →
          validateCoFField f (some sym) = ⟨true, some "high", some code⟩ →
          code ∈ currencyCodes →
          ((validateCoFField f (some n)).valid = true →
             (validateCoFField f (some n)).normalizedValue = some n) ∧
          (lowerStr f = "pod" ∨ lowerStr f = "floor_amount_match" ∨
             lowerStr f = "period" ∨ lowerStr f = "currency" ∨ lowerStr f = "poc" →
           validateCoFField f (some n) = validateCoFField f (some v)) := by
        intro sym code hveq hsymval hcode
        rw [hveq, hsymval] at hnorm
        simp at hnorm
        subst hnorm
        have hn := currency_code_self f hcur code hcode
        rw [hveq, hsymval, hn]
        exact ⟨fun _ => rfl, fun _ => rfl⟩
      rcases hsym with h | h | h | h
      · exact key "$" "USD" h (by rw [validateCoFField_currency f hcur]; decide) (by decide)
      · exact key "€" "EUR" h (by rw [validateCoFField_currency f hcur]; decide) (by decide)
      · exact key "£" "GBP" h (by rw [validateCoFField_currency f hcur]; decide) (by decide)
      · exact key "¥" "JPY" h (by rw [validateCoFField_currency f hcur]; decide) (by decide)
  by_cases hpoc : lowerStr f = "poc"
  · simp only [validateCoFField_poc f hpoc] at hval hnorm ⊢
    by_cases ha : pocRegexAccepts v = true
    · simp [hv1, hv2, ha] at hnorm
      subst hnorm
      refine ⟨fun _ => ?_, fun _ => ?_⟩ <;> simp [hv1, hv2, ha]
    · simp [hv1, hv2, ha, invalidOutcome] at hval
  · have hdef := validateCoFField_default f hpod hfl hco hper hcur hpoc
    simp only [hdef] at hval hnorm ⊢
    simp [hv1, hv2] at hval hnorm
    subst hnorm
    constructor
    · intro hv'
      split_ifs at hv' ⊢ <;> simp_all [invalidOutcome, jsTrim_idem]
    · intro hdisj
      rcases hdisj with h | h | h | h | h
      · exact absurd h hpod
      · exact absurd h hfl
      · exact absurd h hper
      · exact absurd h hcur
      · exact absurd h hpoc

/-- C6: the claim says point-of-contact validation accepts exactly the
well-formed email addresses.  The code's regex is written with a doubled
backslash (`...\\.[a-zA-Z]{2,}$`), which demands a literal backslash
character before the final letters: the well-formed address
alice@example.com is rejected, while the malformed string containing a
real backslash is accepted. -/
theorem poc_validation_rejects_wellformed_email :
    validateCoFField "poc" (some "alice@example.com") = invalidOutcome ∧
    validateCoFField "poc" (some "a@b\\xco") = ⟨true, some "high", some "a@b\\xco"⟩ :=
  ⟨by decide, by decide⟩

/-- C7: floor-amount validation strips non-digits, rejects when the
resulting integer is below 50 (or when there is no digit at all), and
otherwise accepts with confidence high iff the value is at least 1000;
in particular $1,250,000 normalizes to 1250000 with high confidence and
$12 is invalid. -/
theorem floor_amount_validation :
    (∀ v n, v ≠ "" → v ≠ "N/A" → parseIntJS (digitsOf v) = some n →
       validateCoFField "floor_amount_match" (some v) =
         if n < 50 then invalidOutcome
         else ⟨true, some (if 1000 ≤ n then "high" else "medium"), some (digitsOf v)⟩) ∧
    (∀ v, v ≠ "" → v ≠ "N/A" → parseIntJS (digitsOf v) = none →
       validateCoFField "floor_amount_match" (some v) = invalidOutcome) ∧
    validateCoFField "floor_amount_match" (some "$1,250,000") =
      ⟨true, some "high", some "1250000"⟩ ∧
    validateCoFField "floor_amount_match" (some "$12") = invalidOutcome := by
  refine ⟨?_, ?_, by decide, by decide⟩
  · intro v n h1 h2 h3
    rw [validateCoFField_floor "floor_amount_match" (by decide)]
    simp [h1, h2, h3]
  · intro v h1 h2 h3
    rw [validateCoFField_floor "floor_amount_match" (by decide)]
    simp [h1, h2, h3]

/-- C7 witness: the universal part applied at the concrete value $77. -/
theorem floor_amount_validation_witness :
    validateCoFField "floor_amount_match" (some "$77") =
      ⟨true, some "medium", some "77"⟩ := by
  have h := floor_amount_validation.1 "$77" 77 (by decide) (by decide) (by decide)
  simpa using h

/-- C8 counterexample: validation of the single space for a generic
field is accepted with normalizedValue the empty string, but
re-validating that empty string is invalid, so idempotence fails as
stated. -/
theorem validate_trim_not_idempotent :
    validateCoFField "comment" (some " ") = ⟨true, some "medium", some ""⟩ ∧
    validateCoFField "comment" (some "") = invalidOutcome :=
  ⟨by decide, by decide⟩

/-- C8 witness: the amended idempotence applied at the currency field
with raw value usd and normalized value USD. -/
theorem validate_idempotent_on_normalized_witness :
    (validateCoFField "currency" (some "usd")).valid = true ∧
    (validateCoFField "currency" (some "usd")).normalizedValue = some "USD" ∧
    (((validateCoFField "currency" (some "USD")).valid = true →
        (validateCoFField "currency" (some "USD")).normalizedValue = some "USD") ∧
      (lowerStr "currency" = "pod" ∨ lowerStr "currency" = "floor_amount_match" ∨
         lowerStr "currency" = "period" ∨ lowerStr "currency" = "currency" ∨
         lowerStr "currency" = "poc" →
       validateCoFField "currency" (some "USD") = validateCoFField "currency" (some "usd"))) :=
  ⟨by decide, by decide,
    validate_idempotent_on_normalized "currency" "usd" "USD" (by decide) (by decide)⟩

/-! ## Supporting lemmas for the orchestrator -/

theorem validateData_fst (fields : List FieldSpec) (raw : List (String × Option String)) :
    (validateData fields raw).1.map Prod.fst = fields.map FieldSpec.name := by
  simp [validateData, List.map_map, Function.comp]

theorem buildOCRData_fst (st : String) :
    ∀ (fields : List FieldSpec) (d : List (String × Option String)),
      buildOCRData st fields = Except.ok d →
      d.map Prod.fst = fields.map FieldSpec.name := by
  intro fields
  induction fields with
  | nil => intro d h; simp [buildOCRData] at h; simp [← h]
  | cons f fs ih =>
    intro d h
    simp only [buildOCRData] at h
    rcases hv : ocrFieldValue st (lowerStr f.name) with e | v <;> rw [hv] at h
    · simp at h
    · rcases hr : buildOCRData st fs with e | rest <;> rw [hr] at h
      · simp at h
      · simp at h
        simp [← h, ih rest hr]

theorem extractFieldsFromOCRText_keys (t : String) (fields : List FieldSpec)
    (h : (extractFieldsFromOCRText t fields).success = true) :
    (extractFieldsFromOCRText t fields).data.map Prod.fst = fields.map FieldSpec.name := by
  unfold extractFieldsFromOCRText at h ⊢
  rcases hb : buildOCRData (ocrSearchText t) fields with e | d
  · rw [hb] at h; simp at h
  · simpa using buildOCRData_fst _ _ _ hb

theorem extractFieldsFromOCRText_success_count (t : String) (fields : List FieldSpec)
    (h : (extractFieldsFromOCRText t fields).success = true) :
    0 < (extractFieldsFromOCRText t fields).extractedFields ∧
    (extractFieldsFromOCRText t fields).extractedFields =
      countNonNull (extractFieldsFromOCRText t fields).data := by
  unfold extractFieldsFromOCRText at h ⊢
  rcases hb : buildOCRData (ocrSearchText t) fields with e | d
  · rw [hb] at h; simp at h
  · rw [hb] at h
    simp at h ⊢
    exact h

theorem runAdapters_keys (fields : List FieldSpec) :
    ∀ (adapters : List (Option Candidate)) (best : Option BestResult) (invoked : Nat),
      (∀ b0, best = some b0 → b0.data.map Prod.fst = fields.map FieldSpec.name) →
      ∀ b, (runAdapters fields adapters best invoked).1 = some b →
        b.data.map Prod.fst = fields.map FieldSpec.name := by
  intro adapters
  induction adapters with
  | nil => intro best invoked hbest b hb; simp [runAdapters] at hb; exact hbest b hb
  | cons a rest ih =>
    intro best invoked hbest b hb
    rcases a with _ | c
    · simp only [runAdapters] at hb
      exact ih best _ hbest b hb
    · simp only [runAdapters] at hb
      by_cases hc : criticalFields.length ≤ (validateData fields c.data).2
      · rw [if_pos hc] at hb
        simp at hb
        rcases best with _ | b0
        · simp at hb
          simp [← hb, validateData_fst]
        · simp at hb
          by_cases hlt : b0.criticalFieldsFound < (validateData fields c.data).2 <;>
            simp [hlt] at hb
          · simp [← hb, validateData_fst]
          · rw [← hb]
            exact hbest b0 rfl
      · rw [if_neg hc] at hb
        refine ih _ _ ?_ b hb
        intro b0 hb0
        rcases best with _ | b1
        · simp at hb0
          simp [← hb0, validateData_fst]
        · simp at hb0
          by_cases hlt : b1.criticalFieldsFound < (validateData fields c.data).2 <;>
            simp [hlt] at hb0
          · simp [← hb0, validateData_fst]
          · rw [← hb0]
            exact hbest b1 rfl

theorem runAdapters_all_none (fields : List FieldSpec) :
    ∀ (adapters : List (Option Candidate)) (best : Option BestResult) (invoked : Nat),
      (∀ a ∈ adapters, a = none) →
      (runAdapters fields adapters best invoked).1 = best := by
  intro adapters
  induction adapters with
  | nil => intro best invoked _; rfl
  | cons a rest ih =>
    intro best invoked hall
    have ha : a = none := hall a (List.mem_cons_self a rest)
    subst ha
    simp only [runAdapters]
    exact ih best _ fun x hx => hall x (List.mem_cons_of_mem _ hx)

/-! ## Claim theorems: orchestrator (C1, C2, C3, C4, C10) -/

theorem chooseBest_keys (text : String) (fields : List FieldSpec) (pdfPath : Option String)
    (best0 : Option BestResult)
    (h0 : ∀ b, best0 = some b → b.data.map Prod.fst = fields.map FieldSpec.name) :
    ∀ b, chooseBest text fields pdfPath best0 = some b →
      b.data.map Prod.fst = fields.map FieldSpec.name := by
  intro b hb
  unfold chooseBest at hb
  split_ifs at hb
  · rcases pdfPath with _ | p
    · exact h0 b hb
    · simp only [] at hb
      by_cases hs : (extractFieldsFromOCRText text fields).success = true
      · rw [if_pos (by simp [hs, (extractFieldsFromOCRText_success_count text fields hs).1])] at hb
        simp at hb
        rw [← hb]
        exact extractFieldsFromOCRText_keys text fields hs
      · rw [if_neg (by simp [hs])] at hb
        exact h0 b hb
  · exact h0 b hb

theorem finalResult_keys (fields : List FieldSpec) (cs : String) (b1 : Option BestResult)
    (h1 : ∀ b, b1 = some b → b.data.map Prod.fst = fields.map FieldSpec.name) :
    (finalResult fields cs b1).data.map Prod.fst = fields.map FieldSpec.name := by
  rcases b1 with _ | b
  · simp [finalResult, createEmptyResult, List.map_map, Function.comp]
  · simpa [finalResult] using h1 b rfl

/-- C1: on every terminal outcome of the orchestrator (validated model
candidate, pattern fallback, empty result, and the caught-error result)
the data mapping has exactly the requested field names as keys, in
request order, with missing values as explicit nulls; requested names
are assumed distinct, as the JS object keyed by name presupposes. -/
theorem extractFields_data_keys :
    ∀ (text : String) (fields : List FieldSpec) (adapters : List (Option Candidate))
      (pdfPath : Option String) (msg : String),
      (fields.map FieldSpec.name).Nodup →
      (extractFields text fields adapters pdfPath).data.map Prod.fst =
        fields.map FieldSpec.name ∧
      (errorResult fields msg).data.map Prod.fst = fields.map FieldSpec.name := by
  intro text fields adapters pdfPath msg _
  refine ⟨?_, by simp [errorResult, createEmptyResult, List.map_map, Function.comp]⟩
  unfold extractFields
  by_cases ht : jsTrim text = ""
  · rw [if_pos ht]
    rcases pdfPath with _ | p
    · simp [createEmptyResult, List.map_map, Function.comp]
    · show (fallbackToOCR fields).data.map Prod.fst = _
      unfold fallbackToOCR
      by_cases hs : (extractFieldsFromOCRText "" fields).success = true
      · rw [if_pos hs]
        exact extractFieldsFromOCRText_keys "" fields hs
      · rw [if_neg hs]
        simp [createEmptyResult, List.map_map, Function.comp]
  · rw [if_neg ht]
    refine finalResult_keys fields _ _ (chooseBest_keys text fields pdfPath _ ?_)
    exact runAdapters_keys fields adapters none 0 (by intro b0 h; cases h)

/-- C1 witness: a concrete request with distinct names evaluated on the
empty-adapter run. -/
theorem extractFields_data_keys_witness :
    ([⟨"company_name"⟩, ⟨"poc"⟩].map FieldSpec.name).Nodup ∧
    ((extractFields "some text" [⟨"company_name"⟩, ⟨"poc"⟩] [none] none).data.map Prod.fst =
        [⟨"company_name"⟩, ⟨"poc"⟩].map FieldSpec.name ∧
      (errorResult [⟨"company_name"⟩, ⟨"poc"⟩] "boom").data.map Prod.fst =
        [⟨"company_name"⟩, ⟨"poc"⟩].map FieldSpec.name) :=
  ⟨by decide,
    extractFields_data_keys "some text" [⟨"company_name"⟩, ⟨"poc"⟩] [none] none "boom"
      (by decide)⟩

/-- C2: when the first adapter produces a candidate whose validated
critical-field count reaches all three critical fields, the adapter loop
stops immediately: with three configured adapters only one is invoked. -/
theorem adapter_early_stop :
    ∀ (fields : List FieldSpec) (c : Candidate) (a2 a3 : Option Candidate),
      criticalFields.length ≤ (validateData fields c.data).2 →
      (runAdapters fields [some c, a2, a3] none 0).2 = 1 := by
  intro fields c a2 a3 h
  simp only [runAdapters]
  rw [if_pos h]

/-- C2 witness: a request containing the three critical fields and a
first candidate that satisfies all of them; the loop reports exactly one
invocation. -/
theorem adapter_early_stop_witness :
    criticalFields.length ≤
      (validateData [⟨"floor_amount_match"⟩, ⟨"company_name"⟩, ⟨"opportunity_name"⟩]
        [("floor_amount_match", some "5000"), ("company_name", some "Acme Corp"),
         ("opportunity_name", some "Big Deal")]).2 ∧
    (runAdapters [⟨"floor_amount_match"⟩, ⟨"company_name"⟩, ⟨"opportunity_name"⟩]
        [some ⟨[("floor_amount_match", some "5000"), ("company_name", some "Acme Corp"),
                ("opportunity_name", some "Big Deal")], "Google Gemini 1.5 Pro"⟩,
         some ⟨[], "OpenAI GPT-4 Turbo"⟩, some ⟨[], "Anthropic Claude 3.5"⟩] none 0).2 = 1 :=
  ⟨by decide, adapter_early_stop _ _ _ _ (by decide)⟩

/-- C3 counterexample: all three adapters fail, the original text is
available and one field matches a pattern, yet with no document path the
final method is the generic empty result, not the pattern fallback. -/
theorem ocr_fallback_needs_document_path :
    (extractFieldsFromOCRText "company\\\\AcmeLtd" [⟨"company_name"⟩]).success = true ∧
    (extractFieldsFromOCRText "company\\\\AcmeLtd" [⟨"company_name"⟩]).extractedFields = 1 ∧
    (extractFields "company\\\\AcmeLtd" [⟨"company_name"⟩] [none, none, none] none).method =
      "Advanced CoF Extraction" ∧
    (extractFields "company\\\\AcmeLtd" [⟨"company_name"⟩] [none, none, none] none).success =
      false :=
  ⟨by decide, by decide, by decide, by decide⟩

/-- C3 as amended: when every adapter fails, the text is non-empty, a
document path is provided, and the pattern extractor succeeds on at
least one field, the final result is the pattern fallback with
criticalFieldsFound recorded as zero and success true. -/
theorem ocr_fallback_on_total_adapter_failure :
    ∀ (text : String) (fields : List FieldSpec) (adapters : List (Option Candidate))
      (p : String),
      (∀ a ∈ adapters, a = none) → jsTrim text ≠ "" →
      (extractFieldsFromOCRText text fields).success = true →
      (extractFields text fields adapters (some p)).method = "OCR Fallback" ∧
      (extractFields text fields adapters (some p)).criticalFieldsFound = some 0 ∧
      (extractFields text fields adapters (some p)).success = true ∧
      (extractFields text fields adapters (some p)).data =
        (extractFieldsFromOCRText text fields).data := by
  intro text fields adapters p hall ht hs
  obtain ⟨hpos, hcount⟩ := extractFieldsFromOCRText_success_count text fields hs
  unfold extractFields
  rw [if_neg ht]
  rw [runAdapters_all_none fields adapters none 0 hall]
  have hchoose : chooseBest text fields (some p) none =
      some ⟨(extractFieldsFromOCRText text fields).data, "OCR Fallback", 0⟩ := by
    unfold chooseBest
    rw [if_pos (by trivial)]
    simp only []
    rw [if_pos (by simp [hs, hpos])]
  rw [hchoose]
  simp [finalResult]
  rw [← hcount]
  exact hpos

/-- C3 witness: a one-field request over a text that the company-name
pattern matches, three failing adapters and a document path. -/
theorem ocr_fallback_on_total_adapter_failure_witness :
    (∀ a ∈ ([none, none, none] : List (Option Candidate)), a = none) ∧
    jsTrim "company\\\\AcmeLtd" ≠ "" ∧
    (extractFieldsFromOCRText "company\\\\AcmeLtd" [⟨"company_name"⟩]).success = true ∧
    ((extractFields "company\\\\AcmeLtd" [⟨"company_name"⟩] [none, none, none]
        (some "doc.pdf")).method = "OCR Fallback" ∧
      (extractFields "company\\\\AcmeLtd" [⟨"company_name"⟩] [none, none, none]
        (some "doc.pdf")).criticalFieldsFound = some 0 ∧
      (extractFields "company\\\\AcmeLtd" [⟨"company_name"⟩] [none, none, none]
        (some "doc.pdf")).success = true ∧
      (extractFields "company\\\\AcmeLtd" [⟨"company_name"⟩] [none, none, none]
        (some "doc.pdf")).data =
        (extractFieldsFromOCRText "company\\\\AcmeLtd" [⟨"company_name"⟩]).data) :=
  ⟨by decide, by decide, by decide,
    ocr_fallback_on_total_adapter_failure "company\\\\AcmeLtd" [⟨"company_name"⟩]
      [none, none, none] "doc.pdf" (by decide) (by decide) (by decide)⟩

theorem mStrCI_nil (w : String) : mStrCI w [] = [] ∨ mStrCI w [] = [([], [])] := by
  unfold mStrCI
  rcases hw : w.toList with _ | ⟨c, cs⟩
  · right; rfl
  · left; simp [mSeq, mChar, mCharP]

theorem genericPartsMatcher_nil :
    ∀ ps, genericPartsMatcher ps [] = [] ∨ genericPartsMatcher ps [] = [([], [])] := by
  intro ps
  match ps with
  | [] => right; rfl
  | [p] => exact mStrCI_nil p
  | p :: q :: qs =>
    left
    show mSeqs [mStrCI p, mBSs, genericPartsMatcher (q :: qs)] [] = []
    rcases mStrCI_nil p with h | h <;>
      simp [mSeqs, mSeq, mBSs, mChar, mCharP, h]

theorem genericMatcher_nil (name : String) : genericMatcher name [] = [] := by
  unfold genericMatcher
  rcases genericPartsMatcher_nil (splitUnderscore name) with h | h <;>
    simp [mSeqs, mSeq, mBSs, mChar, mCharP, h]

theorem genericValue_empty (name : String) : genericValue name "" = none := by
  unfold genericValue jsMatch
  simp [jsMatchListAux, genericMatcher_nil]

theorem ocrFieldValue_empty (nm : String) : ocrFieldValue "" nm = Except.ok none := by
  by_cases h1 : nm = "pod"
  · subst h1; rfl
  by_cases h2 : nm = "floor_amount_match"
  · subst h2; rfl
  by_cases h3 : nm = "company_name"
  · subst h3; rfl
  by_cases h4 : nm = "period"
  · subst h4; rfl
  · unfold ocrFieldValue
    simp [h1, h2, h3, h4, genericValue_empty]

theorem buildOCRData_empty (fields : List FieldSpec) :
    buildOCRData "" fields = Except.ok (fields.map fun f => (f.name, none)) := by
  induction fields with
  | nil => rfl
  | cons f fs ih => simp [buildOCRData, ocrFieldValue_empty, ih]

theorem countNonNull_all_none (fields : List FieldSpec) :
    countNonNull (fields.map fun f => (f.name, (none : Option String))) = 0 := by
  unfold countNonNull
  rw [List.filter_map]
  simp [Function.comp]

theorem fallbackToOCR_empty (fields : List FieldSpec) :
    fallbackToOCR fields = createEmptyResult fields := by
  unfold fallbackToOCR extractFieldsFromOCRText
  rw [show ocrSearchText "" = "" from rfl, buildOCRData_empty]
  simp [countNonNull_all_none]

/-- C4: with empty input text and a document path provided, the source
routes to fallbackToOCR, but that function ignores the document path and
never invokes the OCR service (ocrService is constructed and never
used): it reruns the pattern extractor on the empty string, which
always yields no field, so the empty-result terminal state is reached
unconditionally — text acquisition from the document never happens. -/
theorem empty_text_fallback_always_empty :
    ∀ (fields : List FieldSpec) (adapters : List (Option Candidate)) (p : String),
      extractFields "" fields adapters (some p) = fallbackToOCR fields ∧
      fallbackToOCR fields = createEmptyResult fields := by
  intro fields adapters p
  refine ⟨?_, fallbackToOCR_empty fields⟩
  unfold extractFields
  rw [if_pos (show jsTrim "" = "" from rfl)]

/-- C10: whenever the best model candidate found fewer than two critical
fields, a document path is present and the pattern extractor succeeds,
the fallback replaces the candidate entirely: the final method is the
pattern fallback, criticalFieldsFound is zero and the data is the
fallback data. -/
theorem ocr_fallback_replaces_partial_candidate :
    ∀ (text : String) (fields : List FieldSpec) (adapters : List (Option Candidate))
      (p : String) (b : BestResult),
      jsTrim text ≠ "" →
      (runAdapters fields adapters none 0).1 = some b →
      b.criticalFieldsFound < 2 →
      (extractFieldsFromOCRText text fields).success = true →
      (extractFields text fields adapters (some p)).method = "OCR Fallback" ∧
      (extractFields text fields adapters (some p)).criticalFieldsFound = some 0 ∧
      (extractFields text fields adapters (some p)).data =
        (extractFieldsFromOCRText text fields).data := by
  intro text fields adapters p b ht hrun hlt hs
  obtain ⟨hpos, _⟩ := extractFieldsFromOCRText_success_count text fields hs
  unfold extractFields
  rw [if_neg ht, hrun]
  have hchoose : chooseBest text fields (some p) (some b) =
      some ⟨(extractFieldsFromOCRText text fields).data, "OCR Fallback", 0⟩ := by
    unfold chooseBest
    rw [if_pos (by simp [hlt])]
    simp only []
    rw [if_pos (by simp [hs, hpos])]
  rw [hchoose]
  simp [finalResult]

/-- C10 witness: the adapter candidate validates one critical field and
two non-null fields, the fallback matches only one field, and the
fallback still replaces the candidate wholesale. -/
theorem ocr_fallback_replaces_partial_candidate_witness :
    (runAdapters [⟨"floor_amount_match"⟩, ⟨"company_name"⟩, ⟨"comment"⟩]
        [some ⟨[("floor_amount_match", some "5000"), ("comment", some "done")],
               "Google Gemini 1.5 Pro"⟩] none 0).1 =
      some ⟨[("floor_amount_match", some "5000"), ("company_name", none),
             ("comment", some "done")], "Google Gemini 1.5 Pro", 1⟩ ∧
    (1 : Nat) < 2 ∧
    countNonNull [("floor_amount_match", some "5000"), ("company_name", none),
                  ("comment", some "done")] = 2 ∧
    countNonNull (extractFieldsFromOCRText "company\\\\AcmeLtd"
        [⟨"floor_amount_match"⟩, ⟨"company_name"⟩, ⟨"comment"⟩]).data = 1 ∧
    ((extractFields "company\\\\AcmeLtd"
        [⟨"floor_amount_match"⟩, ⟨"company_name"⟩, ⟨"comment"⟩]
        [some ⟨[("floor_amount_match", some "5000"), ("comment", some "done")],
               "Google Gemini 1.5 Pro"⟩] (some "doc.pdf")).method = "OCR Fallback" ∧
      (extractFields "company\\\\AcmeLtd"
        [⟨"floor_amount_match"⟩, ⟨"company_name"⟩, ⟨"comment"⟩]
        [some ⟨[("floor_amount_match", some "5000"), ("comment", some "done")],
               "Google Gemini 1.5 Pro"⟩] (some "doc.pdf")).criticalFieldsFound = some 0 ∧
      (extractFields "company\\\\AcmeLtd"
        [⟨"floor_amount_match"⟩, ⟨"company_name"⟩, ⟨"comment"⟩]
        [some ⟨[("floor_amount_match", some "5000"), ("comment", some "done")],
               "Google Gemini 1.5 Pro"⟩] (some "doc.pdf")).data =
        (extractFieldsFromOCRText "company\\\\AcmeLtd"
          [⟨"floor_amount_match"⟩, ⟨"company_name"⟩, ⟨"comment"⟩]).data) :=
  ⟨by decide, by decide, by decide, by decide,
    ocr_fallback_replaces_partial_candidate "company\\\\AcmeLtd"
      [⟨"floor_amount_match"⟩, ⟨"company_name"⟩, ⟨"comment"⟩]
      [some ⟨[("floor_amount_match", some "5000"), ("comment", some "done")],
             "Google Gemini 1.5 Pro"⟩] "doc.pdf"
      ⟨[("floor_amount_match", some "5000"), ("company_name", none),
        ("comment", some "done")], "Google Gemini 1.5 Pro", 1⟩
      (by decide) (by decide) (by decide) (by decide)⟩

/-! ## Claim theorems: folder scanner (C5, C9) -/

theorem filesPass_length (pre : List String) (maxF : Nat) :
    ∀ (items : List FSEntry) (acc : List (List String)), acc.length < maxF →
      (filesPass pre maxF items acc).1.length ≤ maxF ∧
      ((filesPass pre maxF items acc).2 = false →
        (filesPass pre maxF items acc).1.length < maxF) := by
  intro items
  induction items with
  | nil =>
    intro acc h
    simp only [filesPass]
    exact ⟨le_of_lt h, fun _ => h⟩
  | cons e rest ih =>
    intro acc h
    simp only [filesPass]
    by_cases hh : hiddenEntry e.name = true
    · rw [if_pos hh]
      exact ih acc h
    · rw [if_neg hh]
      rcases e with n | ⟨n, ch⟩
      · dsimp only
        by_cases hx : lowerStr (extname n) = ".pdf"
        · rw [if_pos hx]
          by_cases hm : maxF ≤ (acc ++ [pre ++ [n]]).length
          · rw [if_pos hm]
            constructor
            · simp
              omega
            · intro hfalse
              simp at hfalse
          · rw [if_neg hm]
            exact ih _ (by omega)
        · rw [if_neg hx]
          exact ih acc h
      · exact ih acc h

theorem dirsGo_length (recur : String → List FSEntry → Nat → List (List String)) (maxF : Nat)
    (hrec : ∀ n ch b, 1 ≤ b → (recur n ch b).length ≤ b) :
    ∀ (items : List FSEntry) (acc : List (List String)), acc.length < maxF →
      (dirsGo recur maxF items acc).length ≤ maxF := by
  intro items
  induction items with
  | nil => intro acc h; simpa [dirsGo] using le_of_lt h
  | cons e rest ih =>
    intro acc h
    simp only [dirsGo]
    by_cases hs : skippedDirEntry e.name = true
    · rw [if_pos hs]
      exact ih acc h
    · rw [if_neg hs]
      rcases e with n | ⟨n, ch⟩
      · exact ih acc h
      · dsimp only
        have hb : 1 ≤ maxF - acc.length := by omega
        have hsub := hrec n ch (maxF - acc.length) hb
        by_cases hm : maxF ≤ (acc ++ recur n ch (maxF - acc.length)).length
        · rw [if_pos hm]
          simp
          omega
        · rw [if_neg hm]
          exact ih _ (by omega)

theorem scanDirAux_length :
    ∀ (gas : Nat) (pre : List String) (items : List FSEntry) (depth maxF : Nat), 1 ≤ maxF →
      (scanDirAux gas pre items depth maxF).length ≤ maxF := by
  intro gas
  induction gas with
  | zero => intro pre items depth maxF h; simp [scanDirAux]
  | succ g ih =>
    intro pre items depth maxF h
    simp only [scanDirAux]
    by_cases hd : maxDepth < depth
    · rw [if_pos hd]; simp
    · rw [if_neg hd]
      rcases hfp : filesPass pre maxF items [] with ⟨acc, flag⟩
      have hfl := filesPass_length pre maxF items [] (by simpa using h)
      rw [hfp] at hfl
      rcases flag with _ | _
      · dsimp only
        by_cases hc : (decide (acc.length < maxF) && decide (depth < maxDepth)) = true
        · rw [if_pos hc]
          simp at hc
          exact dirsGo_length _ maxF (fun n ch b hb => ih _ _ _ _ hb) items acc hc.1
        · rw [if_neg hc]
          exact hfl.1
      · dsimp only
        exact hfl.1

theorem filesPass_shape (pre : List String) (maxF : Nat) :
    ∀ (items : List FSEntry) (acc : List (List String)),
      ∀ x ∈ (filesPass pre maxF items acc).1,
        x ∈ acc ∨ ∃ n, x = pre ++ [n] ∧ hiddenEntry n = false ∧
          lowerStr (extname n) = ".pdf" := by
  intro items
  induction items with
  | nil => intro acc x hx; exact Or.inl hx
  | cons e rest ih =>
    intro acc x hx
    simp only [filesPass] at hx
    by_cases hh : hiddenEntry e.name = true
    · rw [if_pos hh] at hx
      exact ih acc x hx
    · rw [if_neg hh] at hx
      rcases e with n | ⟨n, ch⟩
      · dsimp only at hx
        by_cases hext : lowerStr (extname n) = ".pdf"
        · rw [if_pos hext] at hx
          by_cases hm : maxF ≤ (acc ++ [pre ++ [n]]).length
          · rw [if_pos hm] at hx
            simp at hx
            rcases hx with hx | hx
            · exact Or.inl hx
            · exact Or.inr ⟨n, hx, by simpa using hh, hext⟩
          · rw [if_neg hm] at hx
            rcases ih _ x hx with hin | hgood
            · simp at hin
              rcases hin with hin | hin
              · exact Or.inl hin
              · exact Or.inr ⟨n, hin, by simpa using hh, hext⟩
            · exact Or.inr hgood
        · rw [if_neg hext] at hx
          exact ih acc x hx
      · exact ih acc x hx

theorem dirsGo_shape (recur : String → List FSEntry → Nat → List (List String)) (maxF : Nat) :
    ∀ (items : List FSEntry) (acc : List (List String)),
      ∀ x ∈ dirsGo recur maxF items acc,
        x ∈ acc ∨ ∃ n ch b, skippedDirEntry n = false ∧ x ∈ recur n ch b := by
  intro items
  induction items with
  | nil => intro acc x hx; exact Or.inl hx
  | cons e rest ih =>
    intro acc x hx
    simp only [dirsGo] at hx
    by_cases hs : skippedDirEntry e.name = true
    · rw [if_pos hs] at hx
      exact ih acc x hx
    · rw [if_neg hs] at hx
      rcases e with n | ⟨n, ch⟩
      · exact ih acc x hx
      · dsimp only at hx
        by_cases hm : maxF ≤ (acc ++ recur n ch (maxF - acc.length)).length
        · rw [if_pos hm] at hx
          simp at hx
          rcases hx with hx | hx
          · exact Or.inl hx
          · exact Or.inr ⟨n, ch, _, by simpa using hs, hx⟩
        · rw [if_neg hm] at hx
          rcases ih _ x hx with hin | hgood
          · simp at hin
            rcases hin with hin | hin
            · exact Or.inl hin
            · exact Or.inr ⟨n, ch, _, by simpa using hs, hin⟩
          · exact Or.inr hgood

theorem scanDirAux_shape :
    ∀ (gas : Nat) (pre : List String) (items : List FSEntry) (depth maxF : Nat),
      ∀ x ∈ scanDirAux gas pre items depth maxF,
        ∃ q, x = pre ++ q ∧ 1 ≤ q.length ∧ depth + q.length ≤ maxDepth + 1 ∧
          (∀ d ∈ q.dropLast, skippedDirEntry d = false) ∧
          ∃ fn, q.getLast? = some fn ∧ hiddenEntry fn = false ∧
            lowerStr (extname fn) = ".pdf" := by
  intro gas
  induction gas with
  | zero => intro pre items depth maxF x hx; simp [scanDirAux] at hx
  | succ g ih =>
    intro pre items depth maxF x hx
    simp only [scanDirAux] at hx
    by_cases hd : maxDepth < depth
    · rw [if_pos hd] at hx; simp at hx
    · rw [if_neg hd] at hx
      rcases hfp : filesPass pre maxF items [] with ⟨acc, flag⟩
      rw [hfp] at hx
      have hfile : ∀ y ∈ acc, ∃ n, y = pre ++ [n] ∧ hiddenEntry n = false ∧
          lowerStr (extname n) = ".pdf" := by
        intro y hy
        have := filesPass_shape pre maxF items [] y (by rw [hfp]; exact hy)
        simpa using this
      have hfileGoal : ∀ y ∈ acc, ∃ q, y = pre ++ q ∧ 1 ≤ q.length ∧
          depth + q.length ≤ maxDepth + 1 ∧
          (∀ d ∈ q.dropLast, skippedDirEntry d = false) ∧
          ∃ fn, q.getLast? = some fn ∧ hiddenEntry fn = false ∧
            lowerStr (extname fn) = ".pdf" := by
        intro y hy
        obtain ⟨n, hn, hhid, hext⟩ := hfile y hy
        exact ⟨[n], hn, by simp, by simp; omega, by simp, n, rfl, hhid, hext⟩
      rcases flag with _ | _
      · dsimp only at hx
        by_cases hc : (decide (acc.length < maxF) && decide (depth < maxDepth)) = true
        · rw [if_pos hc] at hx
          simp at hc
          rcases dirsGo_shape _ maxF items acc x hx with hin | ⟨n, ch, b, hskip, hrec⟩
          · exact hfileGoal x hin
          · obtain ⟨q', hq', hlen', hdep', hdirs', fn, hlast', hhid', hext'⟩ :=
              ih (pre ++ [n]) ch (depth + 1) b x hrec
            refine ⟨n :: q', by simpa using hq', by simp, by simp at hdep' ⊢; omega, ?_, fn, ?_, hhid', hext'⟩
            · intro d hd'
              rcases q' with _ | ⟨q0, qs⟩
              · simp at hlen'
              · simp at hd'
                rcases hd' with hd' | hd'
                · rw [hd']; exact hskip
                · exact hdirs' d (by simpa using hd')
            · rcases q' with _ | ⟨q0, qs⟩
              · simp at hlen'
              · simpa using hlast'
        · rw [if_neg hc] at hx
          exact hfileGoal x hx
      · dsimp only at hx
        exact hfileGoal x hx

/-- C5 counterexample: with a zero budget the scanner still returns one
file, because the budget check runs only after a file has been pushed;
the claim fails for budget N = 0. -/
theorem scan_zero_budget_counterexample :
    ¬ ((scanFolderRecursively [FSEntry.file "a.pdf"] 0).length ≤ 0) := by decide

/-- C5 as amended: for every positive budget N the scan returns at most
N paths, none deeper than the configured maximum depth of 15 directory
levels (so at most 16 components including the file name), and no
returned path passes through a directory whose name triggers the
denylist test (a leading dot or dollar, or a case-insensitive denylist
substring). -/
theorem scan_budget_depth_denylist :
    ∀ (items : List FSEntry) (maxFiles : Nat), 1 ≤ maxFiles →
      (scanFolderRecursively items maxFiles).length ≤ maxFiles ∧
      ∀ p ∈ scanFolderRecursively items maxFiles,
        p.length ≤ maxDepth + 1 ∧ ∀ d ∈ p.dropLast, skippedDirEntry d = false := by
  intro items maxFiles h1
  refine ⟨scanDirAux_length _ _ _ _ _ h1, ?_⟩
  intro p hp
  obtain ⟨q, hq, _, hdep, hdirs, _⟩ := scanDirAux_shape _ [] items 0 maxFiles p hp
  simp at hq
  subst hq
  exact ⟨by omega, hdirs⟩

/-- C5 witness: a two-level tree scanned with budget 3. -/
theorem scan_budget_depth_denylist_witness :
    (1 : Nat) ≤ 3 ∧
    ((scanFolderRecursively [FSEntry.file "a.pdf",
        FSEntry.dir "docs" [FSEntry.file "b.pdf"]] 3).length ≤ 3 ∧
      ∀ p ∈ scanFolderRecursively [FSEntry.file "a.pdf",
          FSEntry.dir "docs" [FSEntry.file "b.pdf"]] 3,
        p.length ≤ maxDepth + 1 ∧ ∀ d ∈ p.dropLast, skippedDirEntry d = false) :=
  ⟨by decide,
    scan_budget_depth_denylist [FSEntry.file "a.pdf",
      FSEntry.dir "docs" [FSEntry.file "b.pdf"]] 3 (by decide)⟩

/-- C9 counterexample: a directory whose name starts with a tilde is
descended into and its file collected — the second (directory) loop
checks only dot and dollar prefixes, not the tilde. -/
theorem tilde_directory_descended :
    scanFolderRecursively [FSEntry.dir "~x" [FSEntry.file "a.pdf"]] 5 =
      [["~x", "a.pdf"]] ∧
    strStartsWith "~x" "~" = true :=
  ⟨by decide, by decide⟩

/-- C9 as amended: collected file names never carry a dot, dollar or
tilde prefix, and traversed directory components never carry a dot or
dollar prefix; tilde-prefixed directories, however, are descended (see
the counterexample). -/
theorem scan_hidden_entry_skips :
    ∀ (items : List FSEntry) (maxFiles : Nat) (p : List String),
      p ∈ scanFolderRecursively items maxFiles →
      (∃ fn, p.getLast? = some fn ∧ hiddenEntry fn = false) ∧
      ∀ d ∈ p.dropLast, strStartsWith d "." = false ∧ strStartsWith d "$" = false := by
  intro items maxFiles p hp
  obtain ⟨q, hq, _, _, hdirs, fn, hlast, hhid, _⟩ :=
    scanDirAux_shape _ [] items 0 maxFiles p hp
  simp at hq
  subst hq
  refine ⟨⟨fn, hlast, hhid⟩, ?_⟩
  intro d hd
  have hskip := hdirs d hd
  unfold skippedDirEntry at hskip
  simp at hskip
  exact hskip.1

/-- C9 witness: the amended statement applied to a concrete membership. -/
theorem scan_hidden_entry_skips_witness :
    (["docs", "b.pdf"] ∈ scanFolderRecursively
        [FSEntry.dir "docs" [FSEntry.file "b.pdf"]] 7) ∧
    ((∃ fn, (["docs", "b.pdf"] : List String).getLast? = some fn ∧ hiddenEntry fn = false) ∧
      ∀ d ∈ (["docs", "b.pdf"] : List String).dropLast,
        strStartsWith d "." = false ∧ strStartsWith d "$" = false) :=
  ⟨by decide,
    scan_hidden_entry_skips [FSEntry.dir "docs" [FSEntry.file "b.pdf"]] 7
      ["docs", "b.pdf"] (by decide)⟩

end DocuSign
